import Mathlib

/-!
# Verification of the `amped` training-loop orchestration

Shallow embedding of the control-flow core of `src/pretrain.py` and
`src/finetune.py`: the cadence predicates, the evaluation loop, the
training loop of `Workspace.train`, and the checkpoint save/load
functions.  The agent and the environment are external collaborators of
the code (consumed only through their interfaces), so they are embedded
as abstract function records; observable actions of the loop are
recorded in an event trace.
-/

namespace Amped

/-- Status field of a `dm_env` TimeStep: FIRST / MID / LAST. -/
inductive StepType where
  | FIRST
  | MID
  | LAST
deriving DecidableEq, Repr

/-- One instant of an episode, as consumed by the loops: its status, its
scalar reward and an abstract observation.  Rewards are modelled as
integers (the loops only ever add them up). -/
structure TimeStep where
  stepType : StepType
  reward : Int
  obs : Nat
deriving DecidableEq, Repr

/-- `TimeStep.last()` of dm_env: the status is LAST. -/
def TimeStep.last (ts : TimeStep) : Bool :=
  ts.stepType = StepType.LAST

/-- An environment, consumed through `reset` / `step` only (spec §6).
The environment state is an abstract natural number. -/
structure EnvModel where
  reset : Nat → Nat × TimeStep
  step : Nat → Nat → Nat × TimeStep

/-- An agent, consumed through the spec §6 contract only.  Meta,
observations and actions are abstract naturals; `update` is observed
through the event trace and the batch counter, so only the
value-producing operations appear here. -/
structure AgentModel where
  initMeta : Nat
  updateMeta : Nat → Nat → TimeStep → Nat
  act : Nat → Nat → Nat → Bool → Nat

/-- Modelled from the spec: `utils.Until` is not under `src/`; spec §8
(Predicate correctness) defines it: `Until(T, repeat)` is true for step
counts `0 .. T/repeat - 1` and false thereafter. -/
def untilPred (total every step : Nat) : Bool :=
  step < total / every

/-- Modelled from the spec: `utils.Every` is not under `src/`; spec §8
(Predicate correctness) defines it: `Every(I, repeat)` is true exactly
at step counts that are positive multiples of `I/repeat`. -/
def everyPred (interval every step : Nat) : Bool :=
  decide (step ≠ 0 ∧ (interval / every) ∣ step)

/-- The events a run of the orchestration code emits, in order:
environment interaction on the train and eval environments, agent
interface calls, and snapshot writes. -/
inductive Event where
  | trainReset
  | trainStep (last : Bool)
  | evalReset
  | evalStep (reward : Int) (last : Bool)
  | initMeta
  | updateMeta
  | act (evalMode : Bool)
  | agentUpdate
  | saveSnapshot
deriving DecidableEq, Repr

/-- Mutable `Workspace` state shared between `train` and `eval`:
the two counters, the two environment states, the number of batches
consumed from the replay iterator, and the number of transitions added
to the replay storage. -/
structure Ws where
  globalStep : Nat
  globalEpisode : Nat
  trainEnvState : Nat
  evalEnvState : Nat
  batchesConsumed : Nat
  replayCount : Nat
deriving DecidableEq, Repr

/-- `Workspace.global_frame`: `global_step * action_repeat`. -/
def Ws.globalFrame (ws : Ws) (actionRepeat : Nat) : Nat :=
  ws.globalStep * actionRepeat

/-- The configuration fields the loops read. -/
structure Cfg where
  numTrainFrames : Nat
  numSeedFrames : Nat
  actionRepeat : Nat
  evalEveryFrames : Nat
  numEvalEpisodes : Nat
  snapshots : List Nat
deriving DecidableEq, Repr

section Eval

variable (eenv : EnvModel) (ag : AgentModel)

/-- The inner `while not time_step.last()` loop of `Workspace.eval`
(pretrain.py lines 165-172): act in eval mode, step the eval
environment, accumulate reward and step count.  `fuel` bounds the
number of iterations; `none` means the bound was hit before a LAST
TimeStep appeared. -/
def evalEpisodeLoop (gs meta : Nat) :
    Nat → Nat → TimeStep → Int → Nat → List Event →
    Option (Nat × TimeStep × Int × Nat × List Event)
  | 0, st, ts, tot, steps, tr =>
    if ts.last then some (st, ts, tot, steps, tr) else none
  | fuel + 1, st, ts, tot, steps, tr =>
    if ts.last then some (st, ts, tot, steps, tr)
    else
      let a := ag.act ts.obs meta gs true
      let r := eenv.step st a
      evalEpisodeLoop gs meta fuel r.1 r.2 (tot + r.2.reward) (steps + 1)
        (tr ++ [Event.act true, Event.evalStep r.2.reward r.2.last])

/-- The outer `while eval_until_episode(episode)` loop of
`Workspace.eval` (lines 163-174).  The loop guard is
`untilPred numEvalEpisodes 1 episode`; since `episode` increases by one
per iteration, the recursion is driven by a fuel counter that the
caller sets to the episode budget. -/
def evalOuterLoop (numEvalEpisodes gs meta fuel : Nat) :
    Nat → Nat → Nat → Int → Nat → List Event →
    Option (Nat × Nat × Int × Nat × List Event)
  | 0, episode, st, tot, steps, tr =>
    if untilPred numEvalEpisodes 1 episode then none
    else some (episode, st, tot, steps, tr)
  | fuelOut + 1, episode, st, tot, steps, tr =>
    if untilPred numEvalEpisodes 1 episode then
      let r := eenv.reset st
      match evalEpisodeLoop eenv ag gs meta fuel r.1 r.2 tot steps
          (tr ++ [Event.evalReset]) with
      | none => none
      | some (st2, _, tot2, steps2, tr2) =>
        evalOuterLoop numEvalEpisodes gs meta fuel fuelOut (episode + 1)
          st2 tot2 steps2 tr2
    else some (episode, st, tot, steps, tr)

/-- Aggregated result of one `Workspace.eval` call: the updated
workspace, the episode counter, the summed reward, the summed step
count, and the trace of events the call emitted. -/
structure EvalResult where
  ws : Ws
  episode : Nat
  totalReward : Int
  steps : Nat
  trace : List Event
deriving DecidableEq, Repr

/-- `Workspace.eval` (pretrain.py lines 159-181): initialize the
counters and the meta once, run `num_eval_episodes` episodes on the
eval environment, log the aggregates.  The only workspace field the
method writes is the eval environment's state. -/
def evalMethod (cfg : Cfg) (fuel : Nat) (ws : Ws) : Option EvalResult :=
  match evalOuterLoop eenv ag cfg.numEvalEpisodes ws.globalStep ag.initMeta fuel
      cfg.numEvalEpisodes 0 ws.evalEnvState 0 0 [Event.initMeta] with
  | none => none
  | some (episode, st2, tot, steps, tr) =>
    some ⟨{ ws with evalEnvState := st2 }, episode, tot, steps, tr⟩

end Eval

section Train

variable (cfg : Cfg) (tenv eenv : EnvModel) (ag : AgentModel)

/-- The loop-local state of `Workspace.train`: the workspace, the meta,
the TimeStep produced by the previous environment interaction, and the
episode-local accumulators `episode_step` / `episode_reward`. -/
structure LoopState where
  ws : Ws
  meta : Nat
  ts : TimeStep
  episodeStep : Nat
  episodeReward : Int
deriving DecidableEq, Repr

/-- Lines 199-224 of pretrain.py: if the previous TimeStep was LAST,
count the episode, reset the training environment, re-initialize the
meta, store the fresh initial TimeStep, and clear the episode-local
accumulators.  (The metric logging in this block is side-effect free
with respect to the modelled state and is not traced.) -/
def episodeBoundaryPhase (s : LoopState) : LoopState × List Event :=
  if s.ts.last then
    let r := tenv.reset s.ws.trainEnvState
    let ws := { s.ws with
      globalEpisode := s.ws.globalEpisode + 1
      trainEnvState := r.1
      replayCount := s.ws.replayCount + 1 }
    (⟨ws, ag.initMeta, r.2, 0, 0⟩, [Event.trainReset, Event.initMeta])
  else (s, [])

/-- Lines 226-227 of pretrain.py: save a snapshot when the current
global frame is in the configured milestone list.  Fine-tuning has no
such block, which the caller models with an empty milestone list. -/
def snapshotPhase (s : LoopState) : List Event :=
  if s.ws.globalFrame cfg.actionRepeat ∈ cfg.snapshots then
    [Event.saveSnapshot]
  else []

/-- Lines 230-234 of pretrain.py: when the evaluation cadence fires on
the current global step, run `Workspace.eval`. -/
def evalPhase (fuel : Nat) (s : LoopState) : Option (LoopState × List Event) :=
  if everyPred cfg.evalEveryFrames cfg.actionRepeat s.ws.globalStep then
    match evalMethod eenv ag cfg fuel s.ws with
    | none => none
    | some r => some ({ s with ws := r.ws }, r.trace)
  else some (s, [])

/-- Lines 236-255 of pretrain.py: update the meta, select an action in
exploration mode, update the agent (consuming one batch) unless the
seed predicate still holds, then step the training environment, store
the transition and advance the counters. -/
def actStepPhase (s : LoopState) : LoopState × List Event :=
  let meta := ag.updateMeta s.meta s.ws.globalStep s.ts
  let a := ag.act s.ts.obs meta s.ws.globalStep false
  let doUpdate := ¬ untilPred cfg.numSeedFrames cfg.actionRepeat s.ws.globalStep
  let updEvents := if doUpdate then [Event.agentUpdate] else []
  let batches := s.ws.batchesConsumed + (if doUpdate then 1 else 0)
  let r := tenv.step s.ws.trainEnvState a
  let ws := { s.ws with
    trainEnvState := r.1
    batchesConsumed := batches
    replayCount := s.ws.replayCount + 1
    globalStep := s.ws.globalStep + 1 }
  (⟨ws, meta, r.2, s.episodeStep + 1, s.episodeReward + r.2.reward⟩,
    [Event.updateMeta, Event.act false] ++ updEvents ++ [Event.trainStep r.2.last])

/-- One iteration of the `while train_until_step(...)` loop of
`Workspace.train` (lines 198-255), composed of the four phases in
source order.  Returns `none` when an evaluation episode exceeded its
fuel. -/
def tickBody (fuel : Nat) (s : LoopState) : Option (LoopState × List Event) :=
  let p1 := episodeBoundaryPhase tenv ag s
  let p2 := snapshotPhase cfg p1.1
  match evalPhase cfg eenv ag fuel p1.1 with
  | none => none
  | some p3 =>
    let p4 := actStepPhase cfg tenv ag p3.1
    some (p4.1, p1.2 ++ p2 ++ p3.2 ++ p4.2)

/-- Result of running a training loop to its end: it finished, it was
interrupted by the user at a tick boundary (carrying the state and
trace at that point), or a fuel bound was hit (a modelling artifact,
never the code's own behaviour). -/
inductive RunResult where
  | finished (s : LoopState) (tr : List Event)
  | interrupted (s : LoopState) (tr : List Event)
  | outOfFuel
deriving DecidableEq, Repr

/-- The `while train_until_step(self.global_step)` loop (lines
198-255), with an optional user interruption arriving at the start of
tick `k`.  `todo` bounds the number of iterations; the caller passes
the exact budget `num_train_frames / action_repeat`, which suffices
because each iteration increments `global_step` by one.  `finalSave`
distinguishes pretrain.py (line 257 saves a snapshot after the loop)
from finetune.py (which does not). -/
def trainLoop (fuel : Nat) (interruptAt : Option Nat) (finalSave : Bool) :
    Nat → Nat → LoopState → List Event → RunResult
  | todo, tickIdx, s, tr =>
    if untilPred cfg.numTrainFrames cfg.actionRepeat s.ws.globalStep then
      if interruptAt = some tickIdx then RunResult.interrupted s tr
      else
        match todo with
        | 0 => RunResult.outOfFuel
        | todo + 1 =>
          match tickBody cfg tenv eenv ag fuel s with
          | none => RunResult.outOfFuel
          | some (s2, tks) => trainLoop fuel interruptAt finalSave todo
              (tickIdx + 1) s2 (tr ++ tks)
    else
      RunResult.finished s (tr ++ if finalSave then [Event.saveSnapshot] else [])

/-- `Workspace.train` of pretrain.py (lines 182-257): set up the first
episode (reset, `init_meta`, store the initial TimeStep, lines
192-195), run the loop, save a final snapshot. -/
def pretrainTrain (fuel : Nat) (interruptAt : Option Nat) : RunResult :=
  let r := tenv.reset 0
  let ws : Ws := ⟨0, 0, r.1, 0, 0, 1⟩
  let s : LoopState := ⟨ws, ag.initMeta, r.2, 0, 0⟩
  trainLoop cfg tenv eenv ag fuel interruptAt true
    (cfg.numTrainFrames / cfg.actionRepeat) 0 s [Event.trainReset, Event.initMeta]

/-- `Workspace.train` of finetune.py (lines 190-267): same loop, but no
snapshot milestones and no final snapshot.  The caller supplies a
configuration whose milestone list is empty, matching the absence of
the snapshot block in the fine-tuning source. -/
def finetuneTrain (fuel : Nat) (interruptAt : Option Nat) : RunResult :=
  let r := tenv.reset 0
  let ws : Ws := ⟨0, 0, r.1, 0, 0, 1⟩
  let s : LoopState := ⟨ws, ag.initMeta, r.2, 0, 0⟩
  trainLoop cfg tenv eenv ag fuel interruptAt false
    (cfg.numTrainFrames / cfg.actionRepeat) 0 s [Event.trainReset, Event.initMeta]

/-- How a `main` invocation ends: a normal return, an interrupt caught
and followed by `exit()`, an interrupt propagating uncaught, or a fuel
bound (modelling artifact). -/
inductive ExitStatus where
  | normal
  | exitAfterSave
  | uncaughtInterrupt
  | outOfFuel
deriving DecidableEq, Repr

/-- The `try/except KeyboardInterrupt` around `workspace.train()` in
pretrain.py `main` (lines 289-294): a completed run returns normally; a
user interruption is caught once, one snapshot is saved, and the
process exits. -/
def pretrainMain (fuel : Nat) (interruptAt : Option Nat) :
    List Event × ExitStatus :=
  match pretrainTrain cfg tenv eenv ag fuel interruptAt with
  | RunResult.finished _ tr => (tr, ExitStatus.normal)
  | RunResult.interrupted _ tr =>
    (tr ++ [Event.saveSnapshot], ExitStatus.exitAfterSave)
  | RunResult.outOfFuel => ([], ExitStatus.outOfFuel)

/-- `main` of finetune.py (lines 300-311) installs no interrupt
handler: `workspace.train()` runs bare, so a user interruption
propagates out of `main` with the trace as it stood. -/
def finetuneMainRun (fuel : Nat) (interruptAt : Option Nat) :
    List Event × ExitStatus :=
  match finetuneTrain cfg tenv eenv ag fuel interruptAt with
  | RunResult.finished _ tr => (tr, ExitStatus.normal)
  | RunResult.interrupted _ tr => (tr, ExitStatus.uncaughtInterrupt)
  | RunResult.outOfFuel => ([], ExitStatus.outOfFuel)

end Train

/-! ## Checkpoint manager -/

/-- The serialized snapshot payload of pretrain.py `save_snapshot`
(lines 274-275): exactly the keys `agent`, `_global_step`,
`_global_episode`.  Agent parameters are abstract. -/
structure PretrainPayload where
  agent : Nat
  globalStep : Nat
  globalEpisode : Nat
deriving DecidableEq, Repr

/-- A file system visible to the checkpoint manager: a partial map from
paths (lists of path components) to snapshot payloads, plus the set of
directories that exist. -/
@[ext]
structure FS where
  files : List String → Option PretrainPayload
  dirs : List (List String)

/-- The fields of the pretraining workspace that `save_snapshot` reads:
the serialized keys, plus the work directory, the configured snapshot
directory and the action repeat that determine the destination path. -/
structure SaveCtx where
  agent : Nat
  globalStep : Nat
  globalEpisode : Nat
  actionRepeat : Nat
  workDir : List String
  snapshotDirCfg : String
deriving DecidableEq, Repr

/-- `snapshot_dir = self.work_dir / self.cfg.snapshot_dir`
(pretrain.py line 270). -/
def SaveCtx.snapshotDir (c : SaveCtx) : List String :=
  c.workDir ++ [c.snapshotDirCfg]

/-- `snapshot_dir / f"snapshot_{self.global_frame}.pt"` (line 272). -/
def SaveCtx.snapshotFile (c : SaveCtx) : List String :=
  c.snapshotDir ++ ["snapshot_" ++ toString (c.globalStep * c.actionRepeat) ++ ".pt"]

/-- `Workspace.save_snapshot` of pretrain.py (lines 269-277): create
the snapshot directory if absent (`mkdir(exist_ok=True, parents=True)`),
then (over)write the payload `{agent, _global_step, _global_episode}`
at the frame-derived path. -/
def saveSnapshotFn (c : SaveCtx) (fs : FS) : FS :=
  { dirs := if c.snapshotDir ∈ fs.dirs then fs.dirs else c.snapshotDir :: fs.dirs
    files := fun p =>
      if p = c.snapshotFile then some ⟨c.agent, c.globalStep, c.globalEpisode⟩
      else fs.files p }

/-- The pretraining workspace state that `load_snapshot` touches.  The
frame budgets are rationals because line 264 of pretrain.py uses true
division (`payload["_global_step"] / 10`); exact rational arithmetic
stands in for Python floats. -/
structure ResumeWs where
  agent : Nat
  globalStep : Nat
  globalEpisode : Nat
  numSeedFrames : ℚ
  numTrainFrames : ℚ
deriving DecidableEq, Repr

/-- Counter initialization of pretrain.py `Workspace.__init__`
(lines 138-139): both counters start at zero. -/
def pretrainInitWs (agent0 : Nat) (nsf0 ntf0 : ℚ) : ResumeWs :=
  ⟨agent0, 0, 0, nsf0, ntf0⟩

/-- `Workspace.load_snapshot` of pretrain.py (lines 259-267): restore
the agent parameters from the payload via `init_from`, redefine the
seed budget as one tenth of the stored step count, subtract the stored
step count plus the new seed budget from the training budget, and
restore `_global_episode` verbatim.  `_global_step` is never
assigned. -/
def pretrainLoadSnapshot (ws : ResumeWs) (p : PretrainPayload) : ResumeWs :=
  let nsf : ℚ := (p.globalStep : ℚ) / 10
  { ws with
    agent := p.agent
    numSeedFrames := nsf
    numTrainFrames := ws.numTrainFrames - ((p.globalStep : ℚ) + nsf)
    globalEpisode := p.globalEpisode }

/-- The configuration fields finetune.py `load_snapshot` reads. -/
structure FtCfg where
  snapshotBaseDir : String
  obsType : String
  task : String
  agentName : String
  seed : Nat
  snapshotTs : Nat
deriving DecidableEq, Repr

/-- `domain, _ = self.cfg.task.split("_", 1)` (finetune.py line 271):
the task text before the first underscore. -/
def FtCfg.domain (cfg : FtCfg) : String :=
  (cfg.task.splitOn "_").headD cfg.task

/-- The path `try_load` builds (finetune.py lines 270-281):
`../../../../../ / snapshot_base_dir / obs_type / domain / agent_name /
seed / snapshot_<snapshot_ts>.pt`. -/
def FtCfg.resolvedPath (cfg : FtCfg) : List String :=
  ["..", "..", "..", "..", ".."] ++
    [cfg.snapshotBaseDir, cfg.obsType, cfg.domain, cfg.agentName,
      toString cfg.seed, "snapshot_" ++ toString cfg.snapshotTs ++ ".pt"]

/-- The failure mode of finetune.py `load_snapshot`: the `assert
payload is not None` on line 295. -/
inductive FtError where
  | assertionError
deriving DecidableEq, Repr

/-- `try_load(seed)` of finetune.py (lines 276-291): read the payload
at the resolved path, or report `None` when the file does not exist. -/
def ftTryLoad (fs : FS) (cfg : FtCfg) : Option PretrainPayload :=
  fs.files cfg.resolvedPath

/-- `Workspace.load_snapshot` of finetune.py (lines 269-297): a single
`try_load` on the configured seed, asserted to have succeeded; no
fallback path exists. -/
def finetuneLoadSnapshot (fs : FS) (cfg : FtCfg) :
    Except FtError PretrainPayload :=
  match ftTryLoad fs cfg with
  | none => Except.error FtError.assertionError
  | some payload => Except.ok payload

/-- The fine-tuning workspace fields relevant to initialization. -/
structure FtWs where
  agent : Nat
  globalStep : Nat
  globalEpisode : Nat
deriving DecidableEq, Repr

/-- The initialization path of finetune.py `Workspace.__init__`
relevant to checkpoints (lines 91-102 and 138-139): build a fresh
agent; when `snapshot_ts > 0`, load the pretrained payload and apply
only its agent parameters via `init_from`; finally set both counters
to zero. -/
def finetuneInit (fs : FS) (cfg : FtCfg) (freshAgent : Nat) :
    Except FtError FtWs :=
  if cfg.snapshotTs > 0 then
    match finetuneLoadSnapshot fs cfg with
    | Except.error e => Except.error e
    | Except.ok payload => Except.ok ⟨payload.agent, 0, 0⟩
  else Except.ok ⟨freshAgent, 0, 0⟩

/-! ## Trace counting helpers -/

/-- Discriminator for `agentUpdate` events. -/
def Event.isAgentUpdate : Event → Bool
  | Event.agentUpdate => true
  | _ => false

/-- Discriminator for `trainStep` events. -/
def Event.isTrainStep : Event → Bool
  | Event.trainStep _ => true
  | _ => false

/-- Discriminator for `trainReset` events. -/
def Event.isTrainReset : Event → Bool
  | Event.trainReset => true
  | _ => false

/-- Discriminator for `evalStep` events. -/
def Event.isEvalStep : Event → Bool
  | Event.evalStep _ _ => true
  | _ => false

/-- Discriminator for `evalReset` events. -/
def Event.isEvalReset : Event → Bool
  | Event.evalReset => true
  | _ => false

/-- Discriminator for `initMeta` events. -/
def Event.isInitMeta : Event → Bool
  | Event.initMeta => true
  | _ => false

/-- Discriminator for `saveSnapshot` events. -/
def Event.isSave : Event → Bool
  | Event.saveSnapshot => true
  | _ => false

/-- Counts `agentUpdate` events (learning updates) in a trace. -/
def countUpdates (tr : List Event) : Nat :=
  tr.countP Event.isAgentUpdate

/-- Counts `trainStep` events (training-environment `step` calls). -/
def countTrainSteps (tr : List Event) : Nat :=
  tr.countP Event.isTrainStep

/-- Counts `trainReset` events (training-environment `reset` calls). -/
def countTrainResets (tr : List Event) : Nat :=
  tr.countP Event.isTrainReset

/-- Counts `evalStep` events (evaluation-environment `step` calls). -/
def countEvalSteps (tr : List Event) : Nat :=
  tr.countP Event.isEvalStep

/-- Counts `evalReset` events (evaluation-environment `reset` calls). -/
def countEvalResets (tr : List Event) : Nat :=
  tr.countP Event.isEvalReset

/-- Counts `initMeta` events (`agent.init_meta()` calls). -/
def countInitMeta (tr : List Event) : Nat :=
  tr.countP Event.isInitMeta

/-- Counts `saveSnapshot` events (`save_snapshot` calls). -/
def countSaves (tr : List Event) : Nat :=
  tr.countP Event.isSave

/-- Sums the rewards carried by the `evalStep` events of a trace. -/
def sumEvalRewards : List Event → Int
  | [] => 0
  | Event.evalStep r _ :: l => r + sumEvalRewards l
  | Event.trainReset :: l => sumEvalRewards l
  | Event.trainStep _ :: l => sumEvalRewards l
  | Event.evalReset :: l => sumEvalRewards l
  | Event.initMeta :: l => sumEvalRewards l
  | Event.updateMeta :: l => sumEvalRewards l
  | Event.act _ :: l => sumEvalRewards l
  | Event.agentUpdate :: l => sumEvalRewards l
  | Event.saveSnapshot :: l => sumEvalRewards l

/-- The events a call of `Workspace.eval` can emit: one `init_meta`,
eval-environment resets and steps, and greedy (`eval_mode=True`) action
selections. -/
def EvalKind (e : Event) : Prop :=
  e = Event.initMeta ∨ e = Event.evalReset ∨ e = Event.act true ∨
    ∃ r b, e = Event.evalStep r b

/-! ## Concrete scenario instances -/

/-- A concrete agent instance: constant meta and actions.  The loops
never inspect these values, so any instance exercises the control
flow. -/
def trivAgent : AgentModel :=
  ⟨0, fun m _ _ => m, fun _ _ _ _ => 0⟩

/-- The spec §8 end-to-end environment: its state counts `step` calls
and every 3rd `step` call returns a LAST TimeStep. -/
def lastEvery3Env : EnvModel :=
  { reset := fun st => (st, ⟨StepType.FIRST, 0, 0⟩)
    step := fun st _ =>
      (st + 1, ⟨if (st + 1) % 3 = 0 then StepType.LAST else StepType.MID, 1, 0⟩) }

/-- An environment whose every `step` call ends the episode (reward 5). -/
def alwaysLastEnv : EnvModel :=
  { reset := fun st => (st, ⟨StepType.FIRST, 0, 0⟩)
    step := fun st _ => (st + 1, ⟨StepType.LAST, 5, 0⟩) }

/-- The spec §8 end-to-end configuration: `num_train_frames = 9`,
`num_seed_frames = 0`, `action_repeat = 1`; the evaluation cadence is
kept out of range. -/
def c1cfg : Cfg := ⟨9, 0, 1, 1000, 1, []⟩

/-- The spec §8 end-to-end pretraining run. -/
def c1run : RunResult :=
  pretrainTrain c1cfg lastEvery3Env lastEvery3Env trivAgent 10 none

/-- The observables of the end-to-end run: final `global_step`, final
`global_episode`, number of `agent.update` calls, number of
training-environment `step` calls. -/
def c1stats : Option (Nat × Nat × Nat × Nat) :=
  match c1run with
  | RunResult.finished s tr =>
    some (s.ws.globalStep, s.ws.globalEpisode, countUpdates tr, countTrainSteps tr)
  | _ => none

/-- A configuration whose seed-frame budget (3) is not divisible by the
action repeat (2): the warm-up boundary in frame units. -/
def c3cfg : Cfg := ⟨100, 3, 2, 1000, 1, []⟩

/-- A mid-episode loop state at `global_step = 1` (so `global_frame =
2 < 3 = num_seed_frames`). -/
def c3state : LoopState :=
  ⟨⟨1, 0, 1, 0, 0, 2⟩, 0, ⟨StepType.MID, 1, 0⟩, 1, 1⟩

/-- An evaluation configuration requesting two episodes. -/
def c4cfg : Cfg := ⟨9, 0, 1, 1000, 2, []⟩

/-- A workspace mid-training: `global_step = 7`, `global_episode = 3`,
training environment in state 11. -/
def c4ws : Ws := ⟨7, 3, 11, 0, 0, 0⟩

/-- A concrete `Workspace.eval` call: two one-step episodes on
`alwaysLastEnv`. -/
def c4eval : Option EvalResult :=
  evalMethod alwaysLastEnv trivAgent c4cfg 10 c4ws

/-- The value `c4eval` computes to: two completed episodes, reward 10,
2 steps, a single `init_meta` at the start. -/
def c4resultVal : EvalResult :=
  ⟨⟨7, 3, 11, 2, 0, 0⟩, 2, 10, 2,
    [Event.initMeta, Event.evalReset, Event.act true, Event.evalStep 5 true,
      Event.evalReset, Event.act true, Event.evalStep 5 true]⟩

/-- A fine-tuning configuration pointing at a pretrained snapshot
(`snapshot_ts = 2000000`). -/
def c6cfg : FtCfg := ⟨"models", "states", "walker_run", "icm", 3, 2000000⟩

/-- A file system holding one pretrained payload (stored counters
`_global_step = 777`, `_global_episode = 88`) at every path, so in
particular at the path `c6cfg` resolves. -/
def c6fs : FS :=
  ⟨fun _ => some ⟨42, 777, 88⟩, []⟩

/-- A fine-tuning configuration for the load-failure scenario. -/
def c8cfg : FtCfg := ⟨"snapshots", "pixels", "quadruped_walk", "rnd", 1, 100000⟩

/-- A file system with no files at all. -/
def c8emptyFS : FS := ⟨fun _ => none, []⟩

/-- A file system holding a payload at every path, so in particular at
the path `c8cfg` resolves. -/
def c8fs : FS :=
  ⟨fun _ => some ⟨9, 500, 4⟩, []⟩

/-! ## Lemmas: the inner episode loop of `Workspace.eval` -/

/-- `sumEvalRewards` distributes over list append. -/
theorem sumEvalRewards_append (l1 l2 : List Event) :
    sumEvalRewards (l1 ++ l2) = sumEvalRewards l1 + sumEvalRewards l2 := by
  induction l1 with
  | nil => simp [sumEvalRewards]
  | cons a l ih =>
    cases a <;> simp [sumEvalRewards, ih, Int.add_assoc]

/-- Every event the inner evaluation loop appends is a greedy action
selection or an eval-environment step. -/
theorem evalEpisodeLoop_mem (eenv : EnvModel) (ag : AgentModel) (gs meta : Nat) :
    ∀ (fuel st : Nat) (ts : TimeStep) (tot : Int) (steps : Nat) (tr : List Event)
      (st2 : Nat) (ts2 : TimeStep) (tot2 : Int) (steps2 : Nat) (tr2 : List Event),
      evalEpisodeLoop eenv ag gs meta fuel st ts tot steps tr
        = some (st2, ts2, tot2, steps2, tr2) →
      ∀ e ∈ tr2, e ∈ tr ∨ e = Event.act true ∨ ∃ r b, e = Event.evalStep r b := by
  intro fuel
  induction fuel with
  | zero =>
    intro st ts tot steps tr st2 ts2 tot2 steps2 tr2 h e he
    by_cases hl : ts.last
    · simp [evalEpisodeLoop, hl] at h
      exact Or.inl (h.2.2.2.2 ▸ he)
    · simp [evalEpisodeLoop, hl] at h
  | succ n ih =>
    intro st ts tot steps tr st2 ts2 tot2 steps2 tr2 h e he
    by_cases hl : ts.last
    · simp [evalEpisodeLoop, hl] at h
      exact Or.inl (h.2.2.2.2 ▸ he)
    · simp only [evalEpisodeLoop, hl, Bool.false_eq_true, if_false] at h
      rcases ih _ _ _ _ _ _ _ _ _ _ h e he with h1 | h2 | h3
      · rcases List.mem_append.mp h1 with ha | hb
        · exact Or.inl ha
        · simp only [List.mem_cons, List.mem_singleton] at hb
          rcases hb with hb | hb | hb
          · exact Or.inr (Or.inl hb)
          · exact Or.inr (Or.inr ⟨_, _, hb⟩)
          · exact absurd hb (by simp)
      · exact Or.inr (Or.inl h2)
      · exact Or.inr (Or.inr h3)

/-- The inner evaluation loop only returns once a LAST TimeStep has
been reached: evaluation episodes are complete episodes. -/
theorem evalEpisodeLoop_last (eenv : EnvModel) (ag : AgentModel) (gs meta : Nat) :
    ∀ (fuel st : Nat) (ts : TimeStep) (tot : Int) (steps : Nat) (tr : List Event)
      (st2 : Nat) (ts2 : TimeStep) (tot2 : Int) (steps2 : Nat) (tr2 : List Event),
      evalEpisodeLoop eenv ag gs meta fuel st ts tot steps tr
        = some (st2, ts2, tot2, steps2, tr2) →
      ts2.last = true := by
  intro fuel
  induction fuel with
  | zero =>
    intro st ts tot steps tr st2 ts2 tot2 steps2 tr2 h
    by_cases hl : ts.last
    · simp [evalEpisodeLoop, hl] at h
      exact h.2.1 ▸ hl
    · simp [evalEpisodeLoop, hl] at h
  | succ n ih =>
    intro st ts tot steps tr st2 ts2 tot2 steps2 tr2 h
    by_cases hl : ts.last
    · simp [evalEpisodeLoop, hl] at h
      exact h.2.1 ▸ hl
    · simp only [evalEpisodeLoop, hl, Bool.false_eq_true, if_false] at h
      exact ih _ _ _ _ _ _ _ _ _ _ h

/-- The inner evaluation loop preserves any event count whose
predicate ignores greedy actions and eval-environment steps. -/
theorem evalEpisodeLoop_countP (eenv : EnvModel) (ag : AgentModel) (gs meta : Nat)
    (p : Event → Bool) (hact : p (Event.act true) = false)
    (hstep : ∀ r b, p (Event.evalStep r b) = false) :
    ∀ (fuel st : Nat) (ts : TimeStep) (tot : Int) (steps : Nat) (tr : List Event)
      (st2 : Nat) (ts2 : TimeStep) (tot2 : Int) (steps2 : Nat) (tr2 : List Event),
      evalEpisodeLoop eenv ag gs meta fuel st ts tot steps tr
        = some (st2, ts2, tot2, steps2, tr2) →
      tr2.countP p = tr.countP p := by
  intro fuel
  induction fuel with
  | zero =>
    intro st ts tot steps tr st2 ts2 tot2 steps2 tr2 h
    by_cases hl : ts.last
    · simp [evalEpisodeLoop, hl] at h
      rw [← h.2.2.2.2]
    · simp [evalEpisodeLoop, hl] at h
  | succ n ih =>
    intro st ts tot steps tr st2 ts2 tot2 steps2 tr2 h
    by_cases hl : ts.last
    · simp [evalEpisodeLoop, hl] at h
      rw [← h.2.2.2.2]
    · simp only [evalEpisodeLoop, hl, Bool.false_eq_true, if_false] at h
      rw [ih _ _ _ _ _ _ _ _ _ _ h]
      simp [List.countP_append, List.countP_cons, hact, hstep]

/-- The inner evaluation loop adds exactly one `evalStep` event per
step it counts. -/
theorem evalEpisodeLoop_steps (eenv : EnvModel) (ag : AgentModel) (gs meta : Nat) :
    ∀ (fuel st : Nat) (ts : TimeStep) (tot : Int) (steps : Nat) (tr : List Event)
      (st2 : Nat) (ts2 : TimeStep) (tot2 : Int) (steps2 : Nat) (tr2 : List Event),
      evalEpisodeLoop eenv ag gs meta fuel st ts tot steps tr
        = some (st2, ts2, tot2, steps2, tr2) →
      steps2 + countEvalSteps tr = steps + countEvalSteps tr2 := by
  intro fuel
  induction fuel with
  | zero =>
    intro st ts tot steps tr st2 ts2 tot2 steps2 tr2 h
    by_cases hl : ts.last
    · simp [evalEpisodeLoop, hl] at h
      rw [← h.2.2.2.2, h.2.2.2.1]
    · simp [evalEpisodeLoop, hl] at h
  | succ n ih =>
    intro st ts tot steps tr st2 ts2 tot2 steps2 tr2 h
    by_cases hl : ts.last
    · simp [evalEpisodeLoop, hl] at h
      rw [← h.2.2.2.2, h.2.2.2.1]
    · simp only [evalEpisodeLoop, hl, Bool.false_eq_true, if_false] at h
      have := ih _ _ _ _ _ _ _ _ _ _ h
      have harr : countEvalSteps (tr ++ [Event.act true,
          Event.evalStep ((eenv.step st (ag.act ts.obs meta gs true)).2).reward
            ((eenv.step st (ag.act ts.obs meta gs true)).2).last])
          = countEvalSteps tr + 1 := by
        simp [countEvalSteps, List.countP_append, List.countP_cons, Event.isEvalStep]
      omega

/-- The inner evaluation loop adds the reward of each step it takes
both to its accumulator and (inside an `evalStep` event) to its
trace. -/
theorem evalEpisodeLoop_reward (eenv : EnvModel) (ag : AgentModel) (gs meta : Nat) :
    ∀ (fuel st : Nat) (ts : TimeStep) (tot : Int) (steps : Nat) (tr : List Event)
      (st2 : Nat) (ts2 : TimeStep) (tot2 : Int) (steps2 : Nat) (tr2 : List Event),
      evalEpisodeLoop eenv ag gs meta fuel st ts tot steps tr
        = some (st2, ts2, tot2, steps2, tr2) →
      tot2 + sumEvalRewards tr = tot + sumEvalRewards tr2 := by
  intro fuel
  induction fuel with
  | zero =>
    intro st ts tot steps tr st2 ts2 tot2 steps2 tr2 h
    by_cases hl : ts.last
    · simp [evalEpisodeLoop, hl] at h
      rw [← h.2.2.2.2, h.2.2.1]
    · simp [evalEpisodeLoop, hl] at h
  | succ n ih =>
    intro st ts tot steps tr st2 ts2 tot2 steps2 tr2 h
    by_cases hl : ts.last
    · simp [evalEpisodeLoop, hl] at h
      rw [← h.2.2.2.2, h.2.2.1]
    · simp only [evalEpisodeLoop, hl, Bool.false_eq_true, if_false] at h
      have := ih _ _ _ _ _ _ _ _ _ _ h
      have harr : sumEvalRewards (tr ++ [Event.act true,
          Event.evalStep ((eenv.step st (ag.act ts.obs meta gs true)).2).reward
            ((eenv.step st (ag.act ts.obs meta gs true)).2).last])
          = sumEvalRewards tr
            + ((eenv.step st (ag.act ts.obs meta gs true)).2).reward := by
        rw [sumEvalRewards_append]
        simp [sumEvalRewards]
      omega

/-! ## Lemmas: the outer episode loop of `Workspace.eval` -/

/-- Every event the outer evaluation loop appends is an
eval-environment reset, a greedy action or an eval-environment step. -/
theorem evalOuterLoop_mem (eenv : EnvModel) (ag : AgentModel)
    (numEvalEpisodes gs meta fuel : Nat) :
    ∀ (fuelOut episode st : Nat) (tot : Int) (steps : Nat) (tr : List Event)
      (ep2 st2 : Nat) (tot2 : Int) (steps2 : Nat) (tr2 : List Event),
      evalOuterLoop eenv ag numEvalEpisodes gs meta fuel fuelOut episode st tot steps tr
        = some (ep2, st2, tot2, steps2, tr2) →
      ∀ e ∈ tr2, e ∈ tr ∨ e = Event.evalReset ∨ e = Event.act true ∨
        ∃ r b, e = Event.evalStep r b := by
  intro fuelOut
  induction fuelOut with
  | zero =>
    intro episode st tot steps tr ep2 st2 tot2 steps2 tr2 h e he
    by_cases hu : untilPred numEvalEpisodes 1 episode
    · simp [evalOuterLoop, hu] at h
    · simp [evalOuterLoop, hu] at h
      exact Or.inl (h.2.2.2.2 ▸ he)
  | succ n ih =>
    intro episode st tot steps tr ep2 st2 tot2 steps2 tr2 h e he
    by_cases hu : untilPred numEvalEpisodes 1 episode
    · simp only [evalOuterLoop, hu, if_true] at h
      rcases hin : evalEpisodeLoop eenv ag gs meta fuel
          (eenv.reset st).1 (eenv.reset st).2 tot steps (tr ++ [Event.evalReset]) with _ | out
      · rw [hin] at h; exact absurd h (by simp)
      · obtain ⟨stA, tsA, totA, stepsA, trA⟩ := out
        rw [hin] at h
        simp only at h
        rcases ih _ _ _ _ _ _ _ _ _ _ h e he with h1 | h2
        · rcases evalEpisodeLoop_mem eenv ag gs meta _ _ _ _ _ _ _ _ _ _ _ hin e h1
            with g1 | g2 | g3
          · rcases List.mem_append.mp g1 with ga | gb
            · exact Or.inl ga
            · simp only [List.mem_singleton] at gb
              exact Or.inr (Or.inl gb)
          · exact Or.inr (Or.inr (Or.inl g2))
          · exact Or.inr (Or.inr (Or.inr g3))
        · exact Or.inr h2
    · simp [evalOuterLoop, hu] at h
      exact Or.inl (h.2.2.2.2 ▸ he)

/-- The outer evaluation loop preserves any event count whose
predicate ignores eval resets, greedy actions and eval steps. -/
theorem evalOuterLoop_countP (eenv : EnvModel) (ag : AgentModel)
    (numEvalEpisodes gs meta fuel : Nat)
    (p : Event → Bool) (hact : p (Event.act true) = false)
    (hstep : ∀ r b, p (Event.evalStep r b) = false)
    (hres : p Event.evalReset = false) :
    ∀ (fuelOut episode st : Nat) (tot : Int) (steps : Nat) (tr : List Event)
      (ep2 st2 : Nat) (tot2 : Int) (steps2 : Nat) (tr2 : List Event),
      evalOuterLoop eenv ag numEvalEpisodes gs meta fuel fuelOut episode st tot steps tr
        = some (ep2, st2, tot2, steps2, tr2) →
      tr2.countP p = tr.countP p := by
  intro fuelOut
  induction fuelOut with
  | zero =>
    intro episode st tot steps tr ep2 st2 tot2 steps2 tr2 h
    by_cases hu : untilPred numEvalEpisodes 1 episode
    · simp [evalOuterLoop, hu] at h
    · simp [evalOuterLoop, hu] at h
      rw [← h.2.2.2.2]
  | succ n ih =>
    intro episode st tot steps tr ep2 st2 tot2 steps2 tr2 h
    by_cases hu : untilPred numEvalEpisodes 1 episode
    · simp only [evalOuterLoop, hu, if_true] at h
      rcases hin : evalEpisodeLoop eenv ag gs meta fuel
          (eenv.reset st).1 (eenv.reset st).2 tot steps (tr ++ [Event.evalReset]) with _ | out
      · rw [hin] at h; exact absurd h (by simp)
      · obtain ⟨stA, tsA, totA, stepsA, trA⟩ := out
        rw [hin] at h
        simp only at h
        rw [ih _ _ _ _ _ _ _ _ _ _ h,
          evalEpisodeLoop_countP eenv ag gs meta p hact hstep _ _ _ _ _ _ _ _ _ _ _ hin]
        simp [List.countP_append, List.countP_cons, hres]
    · simp [evalOuterLoop, hu] at h
      rw [← h.2.2.2.2]

/-- When called with fuel equal to the remaining episode budget, the
outer evaluation loop drives the episode counter exactly to
`numEvalEpisodes` and appends exactly one `evalReset` event per
episode it runs. -/
theorem evalOuterLoop_episodes (eenv : EnvModel) (ag : AgentModel)
    (numEvalEpisodes gs meta fuel : Nat) :
    ∀ (fuelOut episode st : Nat) (tot : Int) (steps : Nat) (tr : List Event)
      (ep2 st2 : Nat) (tot2 : Int) (steps2 : Nat) (tr2 : List Event),
      episode + fuelOut = numEvalEpisodes →
      evalOuterLoop eenv ag numEvalEpisodes gs meta fuel fuelOut episode st tot steps tr
        = some (ep2, st2, tot2, steps2, tr2) →
      ep2 = numEvalEpisodes ∧ countEvalResets tr2 = countEvalResets tr + fuelOut := by
  intro fuelOut
  induction fuelOut with
  | zero =>
    intro episode st tot steps tr ep2 st2 tot2 steps2 tr2 hfe h
    by_cases hu : untilPred numEvalEpisodes 1 episode
    · simp [evalOuterLoop, hu] at h
    · simp [evalOuterLoop, hu] at h
      obtain ⟨h1, -, -, -, h5⟩ := h
      subst h1
      subst h5
      exact ⟨by omega, by omega⟩
  | succ n ih =>
    intro episode st tot steps tr ep2 st2 tot2 steps2 tr2 hfe h
    have hlt : episode < numEvalEpisodes := by omega
    have hu : untilPred numEvalEpisodes 1 episode = true := by
      simp [untilPred]; omega
    simp only [evalOuterLoop, hu, if_true] at h
    rcases hin : evalEpisodeLoop eenv ag gs meta fuel
        (eenv.reset st).1 (eenv.reset st).2 tot steps (tr ++ [Event.evalReset]) with _ | out
    · rw [hin] at h; exact absurd h (by simp)
    · obtain ⟨stA, tsA, totA, stepsA, trA⟩ := out
      rw [hin] at h
      simp only at h
      have hresets : countEvalResets trA = countEvalResets tr + 1 := by
        have hkeep := evalEpisodeLoop_countP eenv ag gs meta Event.isEvalReset rfl
          (fun r b => rfl) _ _ _ _ _ _ _ _ _ _ _ hin
        simp only [countEvalResets]
        rw [hkeep]
        simp [List.countP_append, List.countP_cons, Event.isEvalReset]
      obtain ⟨he, hc⟩ := ih _ _ _ _ _ _ _ _ _ _ (by omega) h
      exact ⟨he, by omega⟩

/-- The outer evaluation loop adds exactly one `evalStep` event per
step it counts. -/
theorem evalOuterLoop_steps (eenv : EnvModel) (ag : AgentModel)
    (numEvalEpisodes gs meta fuel : Nat) :
    ∀ (fuelOut episode st : Nat) (tot : Int) (steps : Nat) (tr : List Event)
      (ep2 st2 : Nat) (tot2 : Int) (steps2 : Nat) (tr2 : List Event),
      evalOuterLoop eenv ag numEvalEpisodes gs meta fuel fuelOut episode st tot steps tr
        = some (ep2, st2, tot2, steps2, tr2) →
      steps2 + countEvalSteps tr = steps + countEvalSteps tr2 := by
  intro fuelOut
  induction fuelOut with
  | zero =>
    intro episode st tot steps tr ep2 st2 tot2 steps2 tr2 h
    by_cases hu : untilPred numEvalEpisodes 1 episode
    · simp [evalOuterLoop, hu] at h
    · simp [evalOuterLoop, hu] at h
      rw [← h.2.2.2.2, h.2.2.2.1]
  | succ n ih =>
    intro episode st tot steps tr ep2 st2 tot2 steps2 tr2 h
    by_cases hu : untilPred numEvalEpisodes 1 episode
    · simp only [evalOuterLoop, hu, if_true] at h
      rcases hin : evalEpisodeLoop eenv ag gs meta fuel
          (eenv.reset st).1 (eenv.reset st).2 tot steps (tr ++ [Event.evalReset]) with _ | out
      · rw [hin] at h; exact absurd h (by simp)
      · obtain ⟨stA, tsA, totA, stepsA, trA⟩ := out
        rw [hin] at h
        simp only at h
        have h1 := evalEpisodeLoop_steps eenv ag gs meta _ _ _ _ _ _ _ _ _ _ _ hin
        have h2 := ih _ _ _ _ _ _ _ _ _ _ h
        have h3 : countEvalSteps (tr ++ [Event.evalReset]) = countEvalSteps tr := by
          simp [countEvalSteps, List.countP_append, List.countP_cons, Event.isEvalReset,
            Event.isEvalStep]
        omega
    · simp [evalOuterLoop, hu] at h
      rw [← h.2.2.2.2, h.2.2.2.1]

/-- The outer evaluation loop accumulates exactly the rewards recorded
in its `evalStep` events. -/
theorem evalOuterLoop_reward (eenv : EnvModel) (ag : AgentModel)
    (numEvalEpisodes gs meta fuel : Nat) :
    ∀ (fuelOut episode st : Nat) (tot : Int) (steps : Nat) (tr : List Event)
      (ep2 st2 : Nat) (tot2 : Int) (steps2 : Nat) (tr2 : List Event),
      evalOuterLoop eenv ag numEvalEpisodes gs meta fuel fuelOut episode st tot steps tr
        = some (ep2, st2, tot2, steps2, tr2) →
      tot2 + sumEvalRewards tr = tot + sumEvalRewards tr2 := by
  intro fuelOut
  induction fuelOut with
  | zero =>
    intro episode st tot steps tr ep2 st2 tot2 steps2 tr2 h
    by_cases hu : untilPred numEvalEpisodes 1 episode
    · simp [evalOuterLoop, hu] at h
    · simp [evalOuterLoop, hu] at h
      rw [← h.2.2.2.2, h.2.2.1]
  | succ n ih =>
    intro episode st tot steps tr ep2 st2 tot2 steps2 tr2 h
    by_cases hu : untilPred numEvalEpisodes 1 episode
    · simp only [evalOuterLoop, hu, if_true] at h
      rcases hin : evalEpisodeLoop eenv ag gs meta fuel
          (eenv.reset st).1 (eenv.reset st).2 tot steps (tr ++ [Event.evalReset]) with _ | out
      · rw [hin] at h; exact absurd h (by simp)
      · obtain ⟨stA, tsA, totA, stepsA, trA⟩ := out
        rw [hin] at h
        simp only at h
        have h1 := evalEpisodeLoop_reward eenv ag gs meta _ _ _ _ _ _ _ _ _ _ _ hin
        have h2 := ih _ _ _ _ _ _ _ _ _ _ h
        have h3 : sumEvalRewards (tr ++ [Event.evalReset]) = sumEvalRewards tr := by
          rw [sumEvalRewards_append]; simp [sumEvalRewards]
        omega
    · simp [evalOuterLoop, hu] at h
      rw [← h.2.2.2.2, h.2.2.1]

/-! ## Lemmas: `Workspace.eval` as a whole -/

/-- What one successful `Workspace.eval` call guarantees: the
workspace counters and the training environment are untouched, the
trace consists of evaluation events only with a single `init_meta`,
the episode counter reaches `num_eval_episodes`, and the returned
aggregates match the trace. -/
theorem evalMethod_spec (eenv : EnvModel) (ag : AgentModel) (cfg : Cfg) (fuel : Nat)
    (ws : Ws) (r : EvalResult) (h : evalMethod eenv ag cfg fuel ws = some r) :
    r.ws.globalStep = ws.globalStep ∧ r.ws.globalEpisode = ws.globalEpisode ∧
    r.ws.trainEnvState = ws.trainEnvState ∧ r.ws.batchesConsumed = ws.batchesConsumed ∧
    (∀ e ∈ r.trace, EvalKind e) ∧
    countInitMeta r.trace = 1 ∧
    r.episode = cfg.numEvalEpisodes ∧
    countEvalResets r.trace = cfg.numEvalEpisodes ∧
    r.steps = countEvalSteps r.trace ∧
    r.totalReward = sumEvalRewards r.trace := by
  unfold evalMethod at h
  rcases hout : evalOuterLoop eenv ag cfg.numEvalEpisodes ws.globalStep ag.initMeta fuel
      cfg.numEvalEpisodes 0 ws.evalEnvState 0 0 [Event.initMeta] with _ | out
  · rw [hout] at h
    exact absurd h (by simp)
  · obtain ⟨ep2, st2, tot2, steps2, tr2⟩ := out
    rw [hout] at h
    simp only at h
    injection h with h
    subst h
    refine ⟨rfl, rfl, rfl, rfl, ?_, ?_, ?_, ?_, ?_, ?_⟩
    · intro e he
      rcases evalOuterLoop_mem eenv ag cfg.numEvalEpisodes ws.globalStep ag.initMeta fuel
          _ _ _ _ _ _ _ _ _ _ _ hout e he with h1 | h2 | h3 | h4
      · simp only [List.mem_singleton] at h1
        exact Or.inl h1
      · exact Or.inr (Or.inl h2)
      · exact Or.inr (Or.inr (Or.inl h3))
      · exact Or.inr (Or.inr (Or.inr h4))
    · have hkeep := evalOuterLoop_countP eenv ag cfg.numEvalEpisodes ws.globalStep
        ag.initMeta fuel Event.isInitMeta rfl (fun r b => rfl) rfl
        _ _ _ _ _ _ _ _ _ _ _ hout
      simp only [countInitMeta]
      rw [hkeep]
      simp [List.countP_cons, Event.isInitMeta]
    · exact (evalOuterLoop_episodes eenv ag cfg.numEvalEpisodes ws.globalStep ag.initMeta
        fuel _ _ _ _ _ _ _ _ _ _ _ (by omega) hout).1
    · have := (evalOuterLoop_episodes eenv ag cfg.numEvalEpisodes ws.globalStep ag.initMeta
        fuel _ _ _ _ _ _ _ _ _ _ _ (by omega) hout).2
      have hz : countEvalResets [Event.initMeta] = 0 := by
        simp [countEvalResets, List.countP_cons, Event.isEvalReset]
      show countEvalResets tr2 = cfg.numEvalEpisodes
      omega
    · have := evalOuterLoop_steps eenv ag cfg.numEvalEpisodes ws.globalStep ag.initMeta
        fuel _ _ _ _ _ _ _ _ _ _ _ hout
      have hz : countEvalSteps [Event.initMeta] = 0 := by
        simp [countEvalSteps, List.countP_cons, Event.isEvalStep]
      show steps2 = countEvalSteps tr2
      omega
    · have := evalOuterLoop_reward eenv ag cfg.numEvalEpisodes ws.globalStep ag.initMeta
        fuel _ _ _ _ _ _ _ _ _ _ _ hout
      have hz : sumEvalRewards [Event.initMeta] = 0 := by
        simp [sumEvalRewards]
      show tot2 = sumEvalRewards tr2
      omega

/-! ## Claims C4 and C5: the evaluation loop -/

/-- C4 (amended): a successful `Workspace.eval` call runs exactly
`num_eval_episodes` complete episodes (the inner driver only returns on
a LAST TimeStep) in greedy/deterministic mode (every action event
carries `eval_mode = true`), and accumulates total reward and total
step count across all episodes; but the Meta is initialized exactly
once per `eval` call, before the first episode, not anew per
episode. -/
theorem C4_eval_episode_contract (eenv : EnvModel) (ag : AgentModel) (cfg : Cfg)
    (fuel : Nat) (ws : Ws) (r : EvalResult)
    (h : evalMethod eenv ag cfg fuel ws = some r) :
    countInitMeta r.trace = 1 ∧
    r.episode = cfg.numEvalEpisodes ∧
    countEvalResets r.trace = cfg.numEvalEpisodes ∧
    (∀ b, Event.act b ∈ r.trace → b = true) ∧
    r.steps = countEvalSteps r.trace ∧
    r.totalReward = sumEvalRewards r.trace ∧
    (∀ (fuel2 st : Nat) (ts : TimeStep) (tot : Int) (steps : Nat) (tr : List Event)
      (st2 : Nat) (ts2 : TimeStep) (tot2 : Int) (steps2 : Nat) (tr2 : List Event),
      evalEpisodeLoop eenv ag ws.globalStep ag.initMeta fuel2 st ts tot steps tr
        = some (st2, ts2, tot2, steps2, tr2) → ts2.last = true) := by
  obtain ⟨-, -, -, -, hmem, hinit, hep, hres, hsteps, hrew⟩ :=
    evalMethod_spec eenv ag cfg fuel ws r h
  refine ⟨hinit, hep, hres, ?_, hsteps, hrew, ?_⟩
  · intro b hb
    rcases hmem _ hb with h1 | h1 | h1 | ⟨r2, b2, h1⟩
    · simp at h1
    · simp at h1
    · injection h1
    · simp at h1
  · intro fuel2 st ts tot steps tr st2 ts2 tot2 steps2 tr2 hloop
    exact evalEpisodeLoop_last eenv ag ws.globalStep ag.initMeta
      _ _ _ _ _ _ _ _ _ _ _ hloop

/-- C4 witness: the concrete two-episode evaluation on `alwaysLastEnv`
satisfies the amended contract. -/
theorem C4_eval_episode_contract_witness :
    evalMethod alwaysLastEnv trivAgent c4cfg 10 c4ws = some c4resultVal ∧
    countInitMeta c4resultVal.trace = 1 ∧
    c4resultVal.episode = c4cfg.numEvalEpisodes := by
  have h : evalMethod alwaysLastEnv trivAgent c4cfg 10 c4ws = some c4resultVal := by
    decide
  have hc := C4_eval_episode_contract alwaysLastEnv trivAgent c4cfg 10 c4ws c4resultVal h
  exact ⟨h, hc.1, hc.2.1⟩

/-- C4 counterexample: with `num_eval_episodes = 2`, the eval call
invokes `init_meta` exactly once (before the episode loop), not once
per episode as the claim states. -/
theorem C4_counterexample :
    c4eval = some c4resultVal ∧
    countInitMeta c4resultVal.trace = 1 ∧
    c4cfg.numEvalEpisodes = 2 ∧
    countInitMeta c4resultVal.trace ≠ c4cfg.numEvalEpisodes := by
  decide

/-- C5: a successful `Workspace.eval` call leaves `_global_step` and
`_global_episode` exactly as they were, and never resets or steps the
training environment (neither its state nor any train-environment
event appears). -/
theorem C5_eval_isolation (eenv : EnvModel) (ag : AgentModel) (cfg : Cfg)
    (fuel : Nat) (ws : Ws) (r : EvalResult)
    (h : evalMethod eenv ag cfg fuel ws = some r) :
    r.ws.globalStep = ws.globalStep ∧
    r.ws.globalEpisode = ws.globalEpisode ∧
    r.ws.trainEnvState = ws.trainEnvState ∧
    countTrainSteps r.trace = 0 ∧
    countTrainResets r.trace = 0 := by
  obtain ⟨h1, h2, h3, -, hmem, -⟩ := evalMethod_spec eenv ag cfg fuel ws r h
  refine ⟨h1, h2, h3, ?_, ?_⟩
  · simp only [countTrainSteps]
    rw [List.countP_eq_zero]
    intro e he
    rcases hmem e he with hk | hk | hk | ⟨r2, b2, hk⟩ <;> subst hk <;>
      simp [Event.isTrainStep]
  · simp only [countTrainResets]
    rw [List.countP_eq_zero]
    intro e he
    rcases hmem e he with hk | hk | hk | ⟨r2, b2, hk⟩ <;> subst hk <;>
      simp [Event.isTrainReset]

/-- C5 witness: the concrete two-episode evaluation keeps the training
counters 7 / 3 and the training-environment state 11 unchanged. -/
theorem C5_eval_isolation_witness :
    evalMethod alwaysLastEnv trivAgent c4cfg 10 c4ws = some c4resultVal ∧
    c4resultVal.ws.globalStep = c4ws.globalStep ∧
    c4resultVal.ws.globalEpisode = c4ws.globalEpisode ∧
    c4resultVal.ws.trainEnvState = c4ws.trainEnvState ∧
    countTrainSteps c4resultVal.trace = 0 := by
  have h : evalMethod alwaysLastEnv trivAgent c4cfg 10 c4ws = some c4resultVal := by
    decide
  have hc := C5_eval_isolation alwaysLastEnv trivAgent c4cfg 10 c4ws c4resultVal h
  exact ⟨h, hc.1, hc.2.1, hc.2.2.1, hc.2.2.2.1⟩

/-! ## Lemmas: one tick of the training loop -/

/-- For a divisible seed budget, the seed predicate's step threshold is
exactly the frame threshold `global_frame < num_seed_frames`. -/
theorem seedThreshold_frame_iff (nsf ar gs : Nat) (hdvd : ar ∣ nsf) :
    gs < nsf / ar ↔ gs * ar < nsf := by
  rw [Nat.lt_div_iff_mul_lt hdvd, Nat.mul_comm]

/-- The episode-boundary phase does not touch the step counter or the
batch counter and emits neither step, update nor save events. -/
theorem episodeBoundaryPhase_spec (tenv : EnvModel) (ag : AgentModel) (s : LoopState) :
    (episodeBoundaryPhase tenv ag s).1.ws.globalStep = s.ws.globalStep ∧
    (episodeBoundaryPhase tenv ag s).1.ws.batchesConsumed = s.ws.batchesConsumed ∧
    countTrainSteps (episodeBoundaryPhase tenv ag s).2 = 0 ∧
    countUpdates (episodeBoundaryPhase tenv ag s).2 = 0 ∧
    countSaves (episodeBoundaryPhase tenv ag s).2 = 0 := by
  by_cases hl : s.ts.last <;>
    simp [episodeBoundaryPhase, hl, countTrainSteps, countUpdates, countSaves,
      List.countP_cons, Event.isTrainStep, Event.isAgentUpdate, Event.isSave]

/-- The snapshot phase emits no step or update events, and no save
event either when the milestone list is empty. -/
theorem snapshotPhase_spec (cfg : Cfg) (s : LoopState) :
    countTrainSteps (snapshotPhase cfg s) = 0 ∧
    countUpdates (snapshotPhase cfg s) = 0 ∧
    (cfg.snapshots = [] → countSaves (snapshotPhase cfg s) = 0) := by
  refine ⟨?_, ?_, ?_⟩
  · by_cases hm : s.ws.globalFrame cfg.actionRepeat ∈ cfg.snapshots <;>
      simp [snapshotPhase, hm, countTrainSteps, List.countP_cons, Event.isTrainStep]
  · by_cases hm : s.ws.globalFrame cfg.actionRepeat ∈ cfg.snapshots <;>
      simp [snapshotPhase, hm, countUpdates, List.countP_cons, Event.isAgentUpdate]
  · intro he
    have hm : ¬ s.ws.globalFrame cfg.actionRepeat ∈ cfg.snapshots := by
      simp [he]
    simp [snapshotPhase, hm, countSaves]

/-- A successful eval phase preserves the step counter, the batch
counter, the meta and the pending TimeStep, and emits no step, update
or save events. -/
theorem evalPhase_spec (cfg : Cfg) (eenv : EnvModel) (ag : AgentModel) (fuel : Nat)
    (s s3 : LoopState) (tr3 : List Event)
    (h : evalPhase cfg eenv ag fuel s = some (s3, tr3)) :
    s3.ws.globalStep = s.ws.globalStep ∧
    s3.ws.batchesConsumed = s.ws.batchesConsumed ∧
    s3.meta = s.meta ∧ s3.ts = s.ts ∧
    countTrainSteps tr3 = 0 ∧
    countUpdates tr3 = 0 ∧
    countSaves tr3 = 0 := by
  unfold evalPhase at h
  by_cases he : everyPred cfg.evalEveryFrames cfg.actionRepeat s.ws.globalStep
  · simp only [he, if_true] at h
    rcases hev : evalMethod eenv ag cfg fuel s.ws with _ | r
    · rw [hev] at h
      exact absurd h (by simp)
    · rw [hev] at h
      simp only at h
      injection h with h
      injection h with hs ht
      subst hs
      subst ht
      obtain ⟨h1, -, -, h4, hmem, -⟩ := evalMethod_spec eenv ag cfg fuel s.ws r hev
      refine ⟨h1, h4, rfl, rfl, ?_, ?_, ?_⟩
      · simp only [countTrainSteps]
        rw [List.countP_eq_zero]
        intro e he2
        rcases hmem e he2 with hk | hk | hk | ⟨r2, b2, hk⟩ <;> subst hk <;>
          simp [Event.isTrainStep]
      · simp only [countUpdates]
        rw [List.countP_eq_zero]
        intro e he2
        rcases hmem e he2 with hk | hk | hk | ⟨r2, b2, hk⟩ <;> subst hk <;>
          simp [Event.isAgentUpdate]
      · simp only [countSaves]
        rw [List.countP_eq_zero]
        intro e he2
        rcases hmem e he2 with hk | hk | hk | ⟨r2, b2, hk⟩ <;> subst hk <;>
          simp [Event.isSave]
  · simp only [he, Bool.false_eq_true, if_false] at h
    injection h with h
    injection h with hs ht
    subst hs
    subst ht
    simp [countTrainSteps, countUpdates, countSaves]

/-- The act/update/step phase: the step counter advances by one, the
batch counter advances iff the seed predicate has expired, and the
emitted events are exactly `update_meta`, `act(explore)`, an optional
`agent.update` and the environment step, in source order. -/
theorem actStepPhase_spec (cfg : Cfg) (tenv : EnvModel) (ag : AgentModel) (s : LoopState) :
    (actStepPhase cfg tenv ag s).1.ws.globalStep = s.ws.globalStep + 1 ∧
    (actStepPhase cfg tenv ag s).1.ws.batchesConsumed
      = s.ws.batchesConsumed
        + (if s.ws.globalStep < cfg.numSeedFrames / cfg.actionRepeat then 0 else 1) ∧
    countTrainSteps (actStepPhase cfg tenv ag s).2 = 1 ∧
    countUpdates (actStepPhase cfg tenv ag s).2
      = (if s.ws.globalStep < cfg.numSeedFrames / cfg.actionRepeat then 0 else 1) ∧
    countSaves (actStepPhase cfg tenv ag s).2 = 0 ∧
    ∃ b, (actStepPhase cfg tenv ag s).2
      = [Event.updateMeta, Event.act false]
        ++ (if s.ws.globalStep < cfg.numSeedFrames / cfg.actionRepeat then
              ([] : List Event) else [Event.agentUpdate])
        ++ [Event.trainStep b] := by
  by_cases hu : s.ws.globalStep < cfg.numSeedFrames / cfg.actionRepeat
  · have hup : untilPred cfg.numSeedFrames cfg.actionRepeat s.ws.globalStep = true := by
      simp [untilPred, hu]
    refine ⟨?_, ?_, ?_, ?_, ?_, ?_⟩ <;>
      simp [actStepPhase, hup, hu, countTrainSteps, countUpdates, countSaves,
        List.countP_append, List.countP_cons, Event.isTrainStep, Event.isAgentUpdate,
        Event.isSave]
  · have hup : untilPred cfg.numSeedFrames cfg.actionRepeat s.ws.globalStep = false := by
      simp [untilPred, hu]
    refine ⟨?_, ?_, ?_, ?_, ?_, ?_⟩ <;>
      simp [actStepPhase, hup, hu, countTrainSteps, countUpdates, countSaves,
        List.countP_append, List.countP_cons, Event.isTrainStep, Event.isAgentUpdate,
        Event.isSave]

/-- `countTrainSteps` distributes over append. -/
theorem countTrainSteps_append (l1 l2 : List Event) :
    countTrainSteps (l1 ++ l2) = countTrainSteps l1 + countTrainSteps l2 := by
  simp [countTrainSteps, List.countP_append]

/-- `countUpdates` distributes over append. -/
theorem countUpdates_append (l1 l2 : List Event) :
    countUpdates (l1 ++ l2) = countUpdates l1 + countUpdates l2 := by
  simp [countUpdates, List.countP_append]

/-- `countSaves` distributes over append. -/
theorem countSaves_append (l1 l2 : List Event) :
    countSaves (l1 ++ l2) = countSaves l1 + countSaves l2 := by
  simp [countSaves, List.countP_append]

/-- A successful tick decomposes into its four phases in source
order. -/
theorem tickBody_parts (cfg : Cfg) (tenv eenv : EnvModel) (ag : AgentModel)
    (fuel : Nat) (s s2 : LoopState) (tr : List Event)
    (h : tickBody cfg tenv eenv ag fuel s = some (s2, tr)) :
    ∃ (s3 : LoopState) (tr3 : List Event),
      evalPhase cfg eenv ag fuel (episodeBoundaryPhase tenv ag s).1 = some (s3, tr3) ∧
      s2 = (actStepPhase cfg tenv ag s3).1 ∧
      tr = (episodeBoundaryPhase tenv ag s).2
        ++ snapshotPhase cfg (episodeBoundaryPhase tenv ag s).1
        ++ tr3 ++ (actStepPhase cfg tenv ag s3).2 := by
  simp only [tickBody] at h
  rcases hev : evalPhase cfg eenv ag fuel (episodeBoundaryPhase tenv ag s).1 with _ | p3
  · rw [hev] at h
    exact absurd h (by simp)
  · obtain ⟨s3, tr3⟩ := p3
    rw [hev] at h
    simp only at h
    injection h with h
    injection h with hs ht
    exact ⟨s3, tr3, rfl, hs.symm, ht.symm⟩

/-- C3 (amended): in a successful tick of the training loop, the agent
update runs if and only if `global_step` has reached
`num_seed_frames / action_repeat` (the seed predicate's threshold in
step units); exactly one update and one batch consumption happen in
that case, none otherwise, and the update precedes the tick's
environment step.  When `action_repeat` divides `num_seed_frames` the
threshold coincides with the claim's `global_frame ≥ num_seed_frames`
boundary. -/
theorem C3_update_gating (cfg : Cfg) (tenv eenv : EnvModel) (ag : AgentModel)
    (fuel : Nat) (s s2 : LoopState) (tr : List Event)
    (h : tickBody cfg tenv eenv ag fuel s = some (s2, tr)) :
    countTrainSteps tr = 1 ∧
    countUpdates tr
      = (if s.ws.globalStep < cfg.numSeedFrames / cfg.actionRepeat then 0 else 1) ∧
    s2.ws.batchesConsumed
      = s.ws.batchesConsumed
        + (if s.ws.globalStep < cfg.numSeedFrames / cfg.actionRepeat then 0 else 1) ∧
    (cfg.numSeedFrames / cfg.actionRepeat ≤ s.ws.globalStep →
      ∃ (pre : List Event) (b : Bool),
        tr = pre ++ [Event.updateMeta, Event.act false, Event.agentUpdate,
          Event.trainStep b]) ∧
    (cfg.actionRepeat ∣ cfg.numSeedFrames →
      (s.ws.globalStep < cfg.numSeedFrames / cfg.actionRepeat ↔
        s.ws.globalFrame cfg.actionRepeat < cfg.numSeedFrames)) := by
  obtain ⟨s3, tr3, hev, hs2, htr⟩ := tickBody_parts cfg tenv eenv ag fuel s s2 tr h
  obtain ⟨hb1, hb2, hb3, hb4, hb5⟩ := episodeBoundaryPhase_spec tenv ag s
  obtain ⟨hn1, hn2, -⟩ := snapshotPhase_spec cfg (episodeBoundaryPhase tenv ag s).1
  obtain ⟨he1, he2, -, -, he5, he6, -⟩ :=
    evalPhase_spec cfg eenv ag fuel (episodeBoundaryPhase tenv ag s).1 s3 tr3 hev
  obtain ⟨ha1, ha2, ha3, ha4, ha5, ha6⟩ := actStepPhase_spec cfg tenv ag s3
  have hgs : s3.ws.globalStep = s.ws.globalStep := by rw [he1, hb1]
  refine ⟨?_, ?_, ?_, ?_, ?_⟩
  · rw [htr, countTrainSteps_append, countTrainSteps_append, countTrainSteps_append]
    omega
  · rw [htr, countUpdates_append, countUpdates_append, countUpdates_append]
    rw [hgs] at ha4
    omega
  · rw [hs2, ha2, he2, hb2, hgs]
  · intro hle
    obtain ⟨b, hshape⟩ := ha6
    rw [hgs] at hshape
    have hcond : ¬ s.ws.globalStep < cfg.numSeedFrames / cfg.actionRepeat := by omega
    rw [if_neg hcond] at hshape
    refine ⟨(episodeBoundaryPhase tenv ag s).2
      ++ snapshotPhase cfg (episodeBoundaryPhase tenv ag s).1 ++ tr3, b, ?_⟩
    rw [htr, hshape]
    simp
  · intro hdvd
    simpa [Ws.globalFrame] using seedThreshold_frame_iff cfg.numSeedFrames
      cfg.actionRepeat s.ws.globalStep hdvd

/-- C3 counterexample: with `num_seed_frames = 3` and
`action_repeat = 2`, the tick at `global_step = 1` (so
`global_frame = 2 < 3`: the claim's WARMUP region) does invoke
`agent.update`. -/
theorem C3_counterexample :
    (tickBody c3cfg lastEvery3Env lastEvery3Env trivAgent 5 c3state).map
      (fun r => countUpdates r.2) = some 1 ∧
    c3state.ws.globalFrame c3cfg.actionRepeat < c3cfg.numSeedFrames := by
  decide

/-- C3 witness: a concrete active-phase tick (`num_seed_frames = 0`)
updates exactly once and consumes one batch. -/
theorem C3_update_gating_witness :
    tickBody c1cfg lastEvery3Env lastEvery3Env trivAgent 5 c3state
        = some (⟨⟨2, 0, 2, 0, 1, 3⟩, 0, ⟨StepType.MID, 1, 0⟩, 2, 2⟩,
          [Event.updateMeta, Event.act false, Event.agentUpdate,
            Event.trainStep false]) ∧
    countUpdates [Event.updateMeta, Event.act false, Event.agentUpdate,
      Event.trainStep false]
      = (if c3state.ws.globalStep < c1cfg.numSeedFrames / c1cfg.actionRepeat
          then 0 else 1) := by
  have h : tickBody c1cfg lastEvery3Env lastEvery3Env trivAgent 5 c3state
      = some (⟨⟨2, 0, 2, 0, 1, 3⟩, 0, ⟨StepType.MID, 1, 0⟩, 2, 2⟩,
        [Event.updateMeta, Event.act false, Event.agentUpdate,
          Event.trainStep false]) := by decide
  have hc := C3_update_gating c1cfg lastEvery3Env lastEvery3Env trivAgent 5 c3state
    _ _ h
  exact ⟨h, hc.2.1⟩

/-- A successful tick under an empty milestone list saves no
snapshot. -/
theorem tickBody_noSave (cfg : Cfg) (tenv eenv : EnvModel) (ag : AgentModel)
    (fuel : Nat) (s s2 : LoopState) (tr : List Event)
    (hsnap : cfg.snapshots = [])
    (h : tickBody cfg tenv eenv ag fuel s = some (s2, tr)) :
    countSaves tr = 0 := by
  obtain ⟨s3, tr3, hev, hs2, htr⟩ := tickBody_parts cfg tenv eenv ag fuel s s2 tr h
  obtain ⟨-, -, -, -, hb5⟩ := episodeBoundaryPhase_spec tenv ag s
  obtain ⟨-, -, hn3⟩ := snapshotPhase_spec cfg (episodeBoundaryPhase tenv ag s).1
  obtain ⟨-, -, -, -, -, -, he7⟩ :=
    evalPhase_spec cfg eenv ag fuel (episodeBoundaryPhase tenv ag s).1 s3 tr3 hev
  obtain ⟨-, -, -, -, ha5, -⟩ := actStepPhase_spec cfg tenv ag s3
  rw [htr, countSaves_append, countSaves_append, countSaves_append]
  have hn := hn3 hsnap
  omega

/-- The training loop run with an empty milestone list and no final
save (the fine-tuning variant) adds no snapshot saves to its trace,
in particular up to an interruption. -/
theorem trainLoop_interrupted_noSave (cfg : Cfg) (tenv eenv : EnvModel)
    (ag : AgentModel) (fuel : Nat) (interruptAt : Option Nat)
    (hsnap : cfg.snapshots = []) :
    ∀ (todo tickIdx : Nat) (s : LoopState) (tr : List Event)
      (s2 : LoopState) (tr2 : List Event),
      trainLoop cfg tenv eenv ag fuel interruptAt false todo tickIdx s tr
        = RunResult.interrupted s2 tr2 →
      countSaves tr2 = countSaves tr := by
  intro todo
  induction todo with
  | zero =>
    intro tickIdx s tr s2 tr2 h
    by_cases hu : untilPred cfg.numTrainFrames cfg.actionRepeat s.ws.globalStep
    · by_cases hi : interruptAt = some tickIdx
      · simp only [trainLoop, hu, hi, if_true] at h
        injection h with h1 h2
        rw [← h2]
      · simp only [trainLoop, hu, hi, if_true, if_false] at h
        exact absurd h (by simp)
    · simp only [trainLoop, hu, Bool.false_eq_true, if_false] at h
      exact absurd h (by simp)
  | succ n ih =>
    intro tickIdx s tr s2 tr2 h
    by_cases hu : untilPred cfg.numTrainFrames cfg.actionRepeat s.ws.globalStep
    · by_cases hi : interruptAt = some tickIdx
      · simp only [trainLoop, hu, hi, if_true] at h
        injection h with h1 h2
        rw [← h2]
      · simp only [trainLoop, hu, hi, if_true, if_false] at h
        rcases htk : tickBody cfg tenv eenv ag fuel s with _ | p
        · rw [htk] at h
          exact absurd h (by simp)
        · obtain ⟨sN, tks⟩ := p
          rw [htk] at h
          simp only at h
          have hrec := ih (tickIdx + 1) sN (tr ++ tks) s2 tr2 h
          have h0 := tickBody_noSave cfg tenv eenv ag fuel s sN tks hsnap htk
          rw [hrec, countSaves_append]
          omega
    · simp only [trainLoop, hu, Bool.false_eq_true, if_false] at h
      exact absurd h (by simp)

/-! ## Claims C1, C7: runs of the training loop and `main` -/

/-- C1 counterexample: in the spec §8 end-to-end scenario (LAST on
every 3rd step call, `num_seed_frames = 0`, `action_repeat = 1`, nine
step calls), the final episode counter is 2, not 3: the loop exits
right after the ninth step call, before the episode-boundary block of
the next iteration would count the third LAST. -/
theorem C1_counterexample :
    (c1stats.map fun x => x.2.1) = some 2 ∧
    (c1stats.map fun x => x.2.1) ≠ some 3 := by
  decide

/-- C1 (amended): the end-to-end scenario performs exactly 9
training-environment step calls and 9 agent updates and ends with
`global_step = 9` and `global_episode = 2`. -/
theorem C1_end_to_end : c1stats = some (9, 2, 9, 9) := by
  decide

/-- C7: an interrupt during the pretraining loop is caught once in
`main`: the handler appends exactly one snapshot save and the process
exits; the fine-tuning `main` has no handler, so the interrupt
propagates uncaught and its trace contains no snapshot saves at
all. -/
theorem C7_interrupt_handling
    (cfgP cfgF : Cfg) (tenvP eenvP tenvF eenvF : EnvModel) (agP agF : AgentModel)
    (fuelP fuelF : Nat) (iP iF : Option Nat) (sP sF : LoopState)
    (trP trF : List Event)
    (hp : pretrainTrain cfgP tenvP eenvP agP fuelP iP = RunResult.interrupted sP trP)
    (hf : finetuneTrain cfgF tenvF eenvF agF fuelF iF = RunResult.interrupted sF trF)
    (hsnapF : cfgF.snapshots = []) :
    pretrainMain cfgP tenvP eenvP agP fuelP iP
      = (trP ++ [Event.saveSnapshot], ExitStatus.exitAfterSave) ∧
    countSaves (trP ++ [Event.saveSnapshot]) = countSaves trP + 1 ∧
    finetuneMainRun cfgF tenvF eenvF agF fuelF iF
      = (trF, ExitStatus.uncaughtInterrupt) ∧
    countSaves trF = 0 := by
  refine ⟨?_, ?_, ?_, ?_⟩
  · simp [pretrainMain, hp]
  · rw [countSaves_append]
    simp [countSaves, List.countP_cons, Event.isSave]
  · simp [finetuneMainRun, hf]
  · simp only [finetuneTrain] at hf
    have hft := trainLoop_interrupted_noSave cfgF tenvF eenvF agF fuelF iF hsnapF
      _ _ _ _ _ _ hf
    rw [hft]
    simp [countSaves, List.countP_cons, Event.isSave]

/-- C7 witness: interrupting both entry points at tick 0 of a concrete
run; pretraining exits after one snapshot save, fine-tuning propagates
the interrupt with no save. -/
theorem C7_interrupt_handling_witness :
    pretrainMain c1cfg lastEvery3Env lastEvery3Env trivAgent 5 (some 0)
      = ([Event.trainReset, Event.initMeta] ++ [Event.saveSnapshot],
        ExitStatus.exitAfterSave) ∧
    finetuneMainRun c1cfg lastEvery3Env lastEvery3Env trivAgent 5 (some 0)
      = ([Event.trainReset, Event.initMeta], ExitStatus.uncaughtInterrupt) ∧
    countSaves [Event.trainReset, Event.initMeta] = 0 := by
  have hp : pretrainTrain c1cfg lastEvery3Env lastEvery3Env trivAgent 5 (some 0)
      = RunResult.interrupted ⟨⟨0, 0, 0, 0, 0, 1⟩, 0, ⟨StepType.FIRST, 0, 0⟩, 0, 0⟩
        [Event.trainReset, Event.initMeta] := by decide
  have hf : finetuneTrain c1cfg lastEvery3Env lastEvery3Env trivAgent 5 (some 0)
      = RunResult.interrupted ⟨⟨0, 0, 0, 0, 0, 1⟩, 0, ⟨StepType.FIRST, 0, 0⟩, 0, 0⟩
        [Event.trainReset, Event.initMeta] := by decide
  have hc := C7_interrupt_handling c1cfg c1cfg lastEvery3Env lastEvery3Env
    lastEvery3Env lastEvery3Env trivAgent trivAgent 5 5 (some 0) (some 0)
    _ _ _ _ hp hf rfl
  exact ⟨hc.1, hc.2.2.1, hc.2.2.2⟩

/-! ## Claims C2, C6, C8, C9, C10: the checkpoint manager -/

/-- C2: pretraining resume reconciles the budgets: the new seed budget
is one tenth of the stored step count `S`, the remaining training
budget shrinks by `S + S/10`, and `_global_episode` is restored; for
`S = 1000` and an original budget of `100000` this gives seed budget
`100` and remaining budget `98900`. -/
theorem C2_resume_budget (ws : ResumeWs) (p : PretrainPayload) :
    (pretrainLoadSnapshot ws p).numSeedFrames = (p.globalStep : ℚ) / 10 ∧
    (pretrainLoadSnapshot ws p).numTrainFrames
      = ws.numTrainFrames - (p.globalStep : ℚ) - (p.globalStep : ℚ) / 10 ∧
    (pretrainLoadSnapshot ws p).globalEpisode = p.globalEpisode ∧
    (pretrainLoadSnapshot (pretrainInitWs 0 4000 100000) ⟨7, 1000, 5⟩).numSeedFrames
      = 100 ∧
    (pretrainLoadSnapshot (pretrainInitWs 0 4000 100000) ⟨7, 1000, 5⟩).numTrainFrames
      = 98900 := by
  refine ⟨rfl, ?_, rfl, ?_, ?_⟩
  · show ws.numTrainFrames - ((p.globalStep : ℚ) + (p.globalStep : ℚ) / 10)
      = ws.numTrainFrames - (p.globalStep : ℚ) - (p.globalStep : ℚ) / 10
    ring
  · show ((1000 : ℚ)) / 10 = 100
    norm_num
  · show (100000 : ℚ) - (((1000 : ℚ)) + ((1000 : ℚ)) / 10) = 98900
    norm_num

/-- C10: the pretraining resume path never assigns `_global_step`: on
a freshly initialized workspace it stays 0 while `_global_episode` and
the budgets are restored from the payload; in general `load_snapshot`
leaves `_global_step` exactly as it was. -/
theorem C10_resume_step_stays_zero (a0 : Nat) (nsf0 ntf0 : ℚ) (p : PretrainPayload) :
    (pretrainLoadSnapshot (pretrainInitWs a0 nsf0 ntf0) p).globalStep = 0 ∧
    (pretrainLoadSnapshot (pretrainInitWs a0 nsf0 ntf0) p).globalEpisode
      = p.globalEpisode ∧
    (pretrainLoadSnapshot (pretrainInitWs a0 nsf0 ntf0) p).numSeedFrames
      = (p.globalStep : ℚ) / 10 ∧
    (pretrainLoadSnapshot (pretrainInitWs a0 nsf0 ntf0) p).numTrainFrames
      = ntf0 - ((p.globalStep : ℚ) + (p.globalStep : ℚ) / 10) ∧
    (∀ ws : ResumeWs, (pretrainLoadSnapshot ws p).globalStep = ws.globalStep) := by
  exact ⟨rfl, rfl, rfl, rfl, fun ws => rfl⟩

/-- C6: with `snapshot_ts > 0`, fine-tuning initialization applies only
the payload's agent parameters and leaves both counters at 0, whatever
counters the source checkpoint stored. -/
theorem C6_finetune_counter_isolation (fs : FS) (cfg : FtCfg) (freshAgent : Nat)
    (p : PretrainPayload) (hts : 0 < cfg.snapshotTs)
    (hfile : fs.files cfg.resolvedPath = some p) :
    finetuneInit fs cfg freshAgent = Except.ok ⟨p.agent, 0, 0⟩ := by
  unfold finetuneInit
  rw [if_pos hts]
  unfold finetuneLoadSnapshot ftTryLoad
  rw [hfile]

/-- C6 witness: loading a payload with stored counters 777 / 88 yields
agent parameters 42 and counters 0 / 0. -/
theorem C6_finetune_counter_isolation_witness :
    0 < c6cfg.snapshotTs ∧
    c6fs.files c6cfg.resolvedPath = some ⟨42, 777, 88⟩ ∧
    finetuneInit c6fs c6cfg 5 = Except.ok ⟨42, 0, 0⟩ := by
  refine ⟨by decide, rfl, ?_⟩
  exact C6_finetune_counter_isolation c6fs c6cfg 5 ⟨42, 777, 88⟩ (by decide) rfl

/-- C8: fine-tuning `load_snapshot` fails with the assertion error when
no file exists at the resolved path, with no fallback; when the file
exists it returns the deserialized payload. -/
theorem C8_load_assert (fs : FS) (cfg : FtCfg) :
    (fs.files cfg.resolvedPath = none →
      finetuneLoadSnapshot fs cfg = Except.error FtError.assertionError) ∧
    (∀ p : PretrainPayload, fs.files cfg.resolvedPath = some p →
      finetuneLoadSnapshot fs cfg = Except.ok p) := by
  constructor
  · intro h
    unfold finetuneLoadSnapshot ftTryLoad
    rw [h]
  · intro p h
    unfold finetuneLoadSnapshot ftTryLoad
    rw [h]

/-- C8 witness: on an empty file system the load asserts out; on a file
system holding the payload it returns it. -/
theorem C8_load_assert_witness :
    finetuneLoadSnapshot c8emptyFS c8cfg = Except.error FtError.assertionError ∧
    finetuneLoadSnapshot c8fs c8cfg = Except.ok ⟨9, 500, 4⟩ := by
  exact ⟨(C8_load_assert c8emptyFS c8cfg).1 rfl,
    (C8_load_assert c8fs c8cfg).2 ⟨9, 500, 4⟩ rfl⟩

/-- C9: `save_snapshot` writes the payload with exactly the keys
`agent`, `_global_step`, `_global_episode` (the three fields of
`PretrainPayload`) at `snapshot_dir/snapshot_<global_frame>.pt`,
creates the snapshot directory, and saving twice at the same frame is
the same file system as saving once — so a later load sees identical
counters and parameters. -/
theorem C9_save_snapshot (c : SaveCtx) (fs : FS) :
    (saveSnapshotFn c fs).files c.snapshotFile
      = some ⟨c.agent, c.globalStep, c.globalEpisode⟩ ∧
    c.snapshotDir ∈ (saveSnapshotFn c fs).dirs ∧
    saveSnapshotFn c (saveSnapshotFn c fs) = saveSnapshotFn c fs ∧
    (saveSnapshotFn c (saveSnapshotFn c fs)).files c.snapshotFile
      = (saveSnapshotFn c fs).files c.snapshotFile := by
  refine ⟨?_, ?_, ?_, ?_⟩
  · simp [saveSnapshotFn]
  · by_cases hm : c.snapshotDir ∈ fs.dirs <;> simp [saveSnapshotFn, hm]
  · apply FS.ext
    · funext p
      by_cases hp : p = c.snapshotFile <;> simp [saveSnapshotFn, hp]
    · by_cases hm : c.snapshotDir ∈ fs.dirs <;> simp [saveSnapshotFn, hm]
  · simp [saveSnapshotFn]

end Amped
